import Mathlib

/-!
Verification development for the mood-ingestion backend
(`function_app.py`, `shared/cosmosdb_client.py`, `shared/genai.py`).

The development shallowly embeds:
  * the JSON value universe manipulated by the code (`JValue`), with an
    executable model of Python's `json.loads` (recursive-descent parser
    with an explicit fuel budget) and of `json.dumps` (default
    separators `", "` and `": "`, minimal escaping);
  * the analysis-coercion function `_coerce_analysis` from
    `function_app.py`;
  * the store operations `create_mood_entry` and `get_mood_stats` from
    `shared/cosmosdb_client.py`, with the external document store
    represented by explicit parameters (write success, query results);
  * the `mood_post` request handler from `function_app.py`, with the
    Python `try/except ValueError/except Exception` control flow made
    explicit through an `Except PyErr` computation.

JSON numbers are modelled as exact decimals `m * 10^(-e)`; this is the
standard shallow embedding of the float/int values `json.loads`
produces, and no claim depends on IEEE rounding.
-/

/-- The universe of JSON-like Python values flowing through the code:
the results of `json.loads`, request bodies, analysis objects and the
documents written to the store. An object is an association list in
insertion order. Strings are kept as character lists (`"...".data` in
statements), keeping every comparison structural. -/
inductive JValue where
  | null : JValue
  | bool : Bool → JValue
  | num : Int → Nat → JValue
  | str : List Char → JValue
  | arr : List JValue → JValue
  | obj : List (List Char × JValue) → JValue
deriving Repr

/-- Characters that are awkward as literals are named. -/
def backtickChar : Char := Char.ofNat 96

def lbraceChar : Char := Char.ofNat 123

def rbraceChar : Char := Char.ofNat 125

def quoteChar : Char := Char.ofNat 34

def backslashChar : Char := Char.ofNat 92

def squoteChar : Char := Char.ofNat 39

/-- ASCII decimal digit test (the only digits relevant to JSON). -/
def isDigitChar (c : Char) : Bool := 48 ≤ c.toNat && c.toNat ≤ 57

/-- JSON whitespace (RFC 8259 / Python `json` scanner). -/
def isJWS (c : Char) : Bool := c = ' ' || c = '\t' || c = '\n' || c = '\r'

def skipWS (cs : List Char) : List Char := cs.dropWhile isJWS

/-- Digit accumulator used by the number scanner: returns the value,
the number of digits consumed, and the remaining input. -/
def readDigits : Nat → Nat → List Char → Nat × Nat × List Char
  | acc, cnt, [] => (acc, cnt, [])
  | acc, cnt, c :: cs =>
    if isDigitChar c then readDigits (acc * 10 + (c.toNat - 48)) (cnt + 1) cs
    else (acc, cnt, c :: cs)

/-- JSON integer part: `0` or a nonzero digit followed by digits
(leading zeros are rejected, as in Python's scanner). -/
def parseIntPart : List Char → Option (Nat × List Char)
  | [] => none
  | c :: cs =>
    if c = '0' then some (0, cs)
    else if isDigitChar c then
      let r := readDigits (c.toNat - 48) 1 cs
      some (r.1, r.2.2)
    else none

/-- Scan an optional fraction `.digits`; when the dot is not followed by
a digit nothing is consumed (the leftover dot then fails downstream,
matching the Python scanner's observable behaviour). -/
def parseFracPart (cs : List Char) : Nat × Nat × List Char :=
  match cs with
  | c :: r =>
    if c = '.' then
      match r with
      | d :: _ => if isDigitChar d then readDigits 0 0 r else (0, 0, cs)
      | [] => (0, 0, cs)
    else (0, 0, cs)
  | [] => (0, 0, cs)

/-- Scan an optional exponent `e[+-]digits`; when malformed nothing is
consumed. Returns the signed exponent. -/
def parseExpPart (cs : List Char) : Int × List Char :=
  match cs with
  | c :: r =>
    if c = 'e' ∨ c = 'E' then
      let sr : Int × List Char :=
        match r with
        | s :: r2 => if s = '+' then (1, r2) else if s = '-' then (-1, r2) else (1, r)
        | [] => (1, r)
      match sr.2 with
      | d :: _ =>
        if isDigitChar d then
          let rd := readDigits 0 0 sr.2
          (sr.1 * (rd.1 : Int), rd.2.2)
        else (0, cs)
      | [] => (0, cs)
    else (0, cs)
  | [] => (0, cs)

/-- Combine sign, mantissa digits, fraction length and exponent into the
exact decimal `m * 10^(-e)` the scanner produced. -/
def mkNum (neg : Bool) (mantissa : Nat) (fracLen : Nat) (expo : Int) : JValue :=
  let m : Int := if neg then -(mantissa : Int) else (mantissa : Int)
  let t : Int := expo - (fracLen : Int)
  if 0 ≤ t then .num (m * 10 ^ t.toNat) 0 else .num m (-t).toNat

/-- JSON number scanner (assumes the head is `-` or a digit). -/
def parseNumber (cs : List Char) : Option (JValue × List Char) :=
  let sr : Bool × List Char :=
    match cs with
    | c :: r => if c = '-' then (true, r) else (false, cs)
    | [] => (false, cs)
  match parseIntPart sr.2 with
  | none => none
  | some (ip, cs2) =>
    let fr := parseFracPart cs2
    let er := parseExpPart fr.2.2
    some (mkNum sr.1 (ip * 10 ^ fr.2.1 + fr.1) fr.2.1 er.1, er.2)

/-- Value of one hexadecimal digit. -/
def hexVal (c : Char) : Option Nat :=
  if isDigitChar c then some (c.toNat - 48)
  else if 97 ≤ c.toNat ∧ c.toNat ≤ 102 then some (c.toNat - 87)
  else if 65 ≤ c.toNat ∧ c.toNat ≤ 70 then some (c.toNat - 55)
  else none

/-- Single-character JSON escapes. -/
def unescapeChar (c : Char) : Option Char :=
  if c = quoteChar then some quoteChar
  else if c = backslashChar then some backslashChar
  else if c = '/' then some '/'
  else if c = 'n' then some '\n'
  else if c = 't' then some '\t'
  else if c = 'r' then some '\r'
  else if c = 'b' then some (Char.ofNat 8)
  else if c = 'f' then some (Char.ofNat 12)
  else none

/-- Body of a JSON string literal, after the opening quote: unescapes
until the closing quote; raw control characters are rejected (`strict`
mode of Python's scanner). -/
def parseStringBody : List Char → Option (List Char × List Char)
  | [] => none
  | c :: cs =>
    if c = quoteChar then some ([], cs)
    else if c = backslashChar then
      match cs with
      | [] => none
      | e :: cs2 =>
        if e = 'u' then
          match cs2 with
          | h1 :: h2 :: h3 :: h4 :: cs3 =>
            match hexVal h1, hexVal h2, hexVal h3, hexVal h4 with
            | some a, some b, some c2, some d =>
              (parseStringBody cs3).map
                (fun p => (Char.ofNat (4096 * a + 256 * b + 16 * c2 + d) :: p.1, p.2))
            | _, _, _, _ => none
          | _ => none
        else
          match unescapeChar e with
          | some u => (parseStringBody cs2).map (fun p => (u :: p.1, p.2))
          | none => none
    else if c.toNat < 32 then none
    else (parseStringBody cs).map (fun p => (c :: p.1, p.2))

mutual

/-- JSON value parser with a fuel budget; every recursive call spends
one unit. -/
def parseValue : Nat → List Char → Option (JValue × List Char)
  | 0, _ => none
  | fuel + 1, cs =>
    match skipWS cs with
    | [] => none
    | c :: r =>
      if c = lbraceChar then
        match parseMembers fuel r with
        | some (fs, r2) => some (.obj fs, r2)
        | none => none
      else if c = '[' then
        match parseElems fuel r with
        | some (vs, r2) => some (.arr vs, r2)
        | none => none
      else if c = quoteChar then
        match parseStringBody r with
        | some (s, r2) => some (.str s, r2)
        | none => none
      else
        match c :: r with
        | 'n' :: 'u' :: 'l' :: 'l' :: r2 => some (.null, r2)
        | 't' :: 'r' :: 'u' :: 'e' :: r2 => some (.bool true, r2)
        | 'f' :: 'a' :: 'l' :: 's' :: 'e' :: r2 => some (.bool false, r2)
        | _ => if c = '-' ∨ isDigitChar c then parseNumber (c :: r) else none

/-- Array elements, entered right after `[`. -/
def parseElems : Nat → List Char → Option (List JValue × List Char)
  | 0, _ => none
  | fuel + 1, cs =>
    match skipWS cs with
    | [] => none
    | c :: r =>
      if c = ']' then some ([], r)
      else
        match parseValue fuel (c :: r) with
        | some (v, r2) =>
          match parseElemsTail fuel r2 with
          | some (vs, r3) => some (v :: vs, r3)
          | none => none
        | none => none

/-- Array continuation after one element: `,` then a mandatory element,
or `]`. -/
def parseElemsTail : Nat → List Char → Option (List JValue × List Char)
  | 0, _ => none
  | fuel + 1, cs =>
    match skipWS cs with
    | [] => none
    | c :: r =>
      if c = ']' then some ([], r)
      else if c = ',' then
        match parseValue fuel r with
        | some (v, r2) =>
          match parseElemsTail fuel r2 with
          | some (vs, r3) => some (v :: vs, r3)
          | none => none
        | none => none
      else none

/-- Object members, entered right after the opening brace. -/
def parseMembers : Nat → List Char → Option (List (List Char × JValue) × List Char)
  | 0, _ => none
  | fuel + 1, cs =>
    match skipWS cs with
    | [] => none
    | c :: r =>
      if c = rbraceChar then some ([], r)
      else if c = quoteChar then
        match parseStringBody r with
        | some (k, r2) =>
          match skipWS r2 with
          | c2 :: r3 =>
            if c2 = ':' then
              match parseValue fuel r3 with
              | some (v, r4) =>
                match parseMembersTail fuel r4 with
                | some (fs, r5) => some ((k, v) :: fs, r5)
                | none => none
              | none => none
            else none
          | [] => none
        | none => none
      else none

/-- Object continuation after one member: `,` then a mandatory member,
or the closing brace. -/
def parseMembersTail : Nat → List Char →
    Option (List (List Char × JValue) × List Char)
  | 0, _ => none
  | fuel + 1, cs =>
    match skipWS cs with
    | [] => none
    | c :: r =>
      if c = rbraceChar then some ([], r)
      else if c = ',' then
        match skipWS r with
        | c2 :: r2 =>
          if c2 = quoteChar then
            match parseStringBody r2 with
            | some (k, r3) =>
              match skipWS r3 with
              | c3 :: r4 =>
                if c3 = ':' then
                  match parseValue fuel r4 with
                  | some (v, r5) =>
                    match parseMembersTail fuel r5 with
                    | some (fs, r6) => some ((k, v) :: fs, r6)
                    | none => none
                  | none => none
                else none
              | [] => none
            | none => none
          else none
        | [] => none
      else none

end

/-- Model of Python's `json.loads`: parse one document and require that
only whitespace remains. The fuel `2 * length + 2` dominates the call
depth of the scanner on any input (each unit of depth consumes at least
half a character of input). On failure Python raises
`json.JSONDecodeError` (a `ValueError`); the model returns `none`. -/
def json_loads (cs : List Char) : Option JValue :=
  match parseValue (2 * cs.length + 2) cs with
  | some (v, rest) => if skipWS rest = [] then some v else none
  | none => none

/-- Digit character for a value below ten. -/
def digitChar (d : Nat) : Char := Char.ofNat (48 + d)

/-- Decimal digits of `n`, least significant first. -/
def natToDigitsRev : Nat → List Char
  | 0 => []
  | n + 1 => digitChar ((n + 1) % 10) :: natToDigitsRev ((n + 1) / 10)
decreasing_by exact Nat.div_lt_self (Nat.succ_pos n) (by decide)

/-- Decimal digits of `n`, most significant first, `"0"` for zero. -/
def natToDigits (n : Nat) : List Char :=
  if n = 0 then [digitChar 0] else (natToDigitsRev n).reverse

/-- Print the exact decimal `m * 10^(-e)` the way `json.dumps` prints
the corresponding int (`e = 0`) or float: sign, integer digits, and for
`e > 0` a decimal point before the last `e` digits (padding with zeros
so an integer digit always remains, as float repr does). -/
def printNum (m : Int) (e : Nat) : List Char :=
  let sign : List Char := if m < 0 then ['-'] else []
  let ds := natToDigits m.natAbs
  if e = 0 then sign ++ ds
  else
    let ds' := List.replicate (e + 1 - ds.length) (digitChar 0) ++ ds
    let k := ds'.length - e
    sign ++ ds'.take k ++ '.' :: ds'.drop k

/-- Characters `json.dumps` escapes with a named escape. -/
def escChar (c : Char) : List Char :=
  if c = quoteChar then [backslashChar, quoteChar]
  else if c = backslashChar then [backslashChar, backslashChar]
  else if c = '\n' then [backslashChar, 'n']
  else if c = '\t' then [backslashChar, 't']
  else if c = '\r' then [backslashChar, 'r']
  else if c = Char.ofNat 8 then [backslashChar, 'b']
  else if c = Char.ofNat 12 then [backslashChar, 'f']
  else [c]

def escapeChars : List Char → List Char
  | [] => []
  | c :: cs => escChar c ++ escapeChars cs

/-- A JSON string literal. -/
def printStr (s : List Char) : List Char :=
  quoteChar :: escapeChars s ++ [quoteChar]

mutual

/-- Model of `json.dumps` with its default separators `", "`/`": "`. -/
def printV : JValue → List Char
  | .null => "null".data
  | .bool true => "true".data
  | .bool false => "false".data
  | .num m e => printNum m e
  | .str s => printStr s
  | .arr [] => ['[', ']']
  | .arr (x :: xs) => '[' :: (printV x ++ printSepElems xs)
  | .obj [] => [lbraceChar, rbraceChar]
  | .obj (f :: fs) => lbraceChar :: (printKV f ++ printSepFields fs)

/-- Remaining array elements, each preceded by `", "`, then `]`. -/
def printSepElems : List JValue → List Char
  | [] => [']']
  | y :: ys => ',' :: ' ' :: (printV y ++ printSepElems ys)

/-- One `"key": value` member. -/
def printKV : List Char × JValue → List Char
  | (k, v) => printStr k ++ ':' :: ' ' :: printV v

/-- Remaining object members, each preceded by `", "`, then the closing
brace. -/
def printSepFields : List (List Char × JValue) → List Char
  | [] => [rbraceChar]
  | f :: fs => ',' :: ' ' :: (printKV f ++ printSepFields fs)

end

def json_dumps (v : JValue) : String := String.mk (printV v)

/-- Well-formedness of a value for the print/parse round trip: every
character of every string and key is either printable (not an ASCII
control character) or one of the controls `json.dumps` writes with a
named escape. -/
def okChar (c : Char) : Bool :=
  32 ≤ c.toNat || c = '\n' || c = '\t' || c = '\r' || c = Char.ofNat 8 || c = Char.ofNat 12

mutual

def wfV : JValue → Bool
  | .null => true
  | .bool _ => true
  | .num _ _ => true
  | .str s => s.all okChar
  | .arr xs => wfList xs
  | .obj fs => wfFields fs

def wfList : List JValue → Bool
  | [] => true
  | x :: xs => wfV x && wfList xs

def wfFields : List (List Char × JValue) → Bool
  | [] => true
  | (k, v) :: fs => k.all okChar && wfV v && wfFields fs

end

/- Fuel budget the scanner needs on the printed form of a value. -/
mutual

def sizeV : JValue → Nat
  | .arr xs => 1 + sizeList xs
  | .obj fs => 1 + sizeFields fs
  | _ => 1

def sizeList : List JValue → Nat
  | [] => 1
  | x :: xs => 1 + max (sizeV x) (sizeList xs)

def sizeFields : List (List Char × JValue) → Nat
  | [] => 1
  | (_, v) :: fs => 1 + max (sizeV v) (sizeFields fs)

end

/-- Whitespace of Python's `str.strip()` and of the regex class `\s`
(ASCII part; the inputs of interest are ASCII). -/
def isPyWS (c : Char) : Bool :=
  c = ' ' || c = '\t' || c = '\n' || c = '\r' || c = Char.ofNat 11 || c = Char.ofNat 12

def dropRightWhilePy (cs : List Char) : List Char :=
  (cs.reverse.dropWhile isPyWS).reverse

/-- Python `str.strip()`. -/
def pyStrip (cs : List Char) : List Char :=
  dropRightWhilePy (cs.dropWhile isPyWS)

/-- The crucial three backticks. -/
def fenceMarker : List Char := [backtickChar, backtickChar, backtickChar]

/-- Characters the opening-fence regex allows as a language tag:
`[a-zA-Z0-9_-]`. -/
def isFenceTag (c : Char) : Bool :=
  (65 ≤ c.toNat && c.toNat ≤ 90) || (97 ≤ c.toNat && c.toNat ≤ 122) ||
    isDigitChar c || c = '_' || c = '-'

/-- `re.sub(r'^```[a-zA-Z0-9_-]*\n', '', txt)`: remove an opening fence
line when the backticks and optional tag are followed by a newline;
otherwise leave the text unchanged. -/
def stripOpenFence (cs : List Char) : List Char :=
  if cs.take 3 = fenceMarker then
    match (cs.drop 3).dropWhile isFenceTag with
    | c :: r => if c = '\n' then r else cs
    | [] => cs
  else cs

/-- `re.sub(r'```\s*$', '', txt)`: remove a closing fence that is
followed only by whitespace; otherwise leave the text unchanged. -/
def stripCloseFence (cs : List Char) : List Char :=
  let u := dropRightWhilePy cs
  if u.reverse.take 3 = fenceMarker then (u.reverse.drop 3).reverse else cs

/-- The text-normalisation pipeline of `_coerce_analysis` before any
parse attempt: strip, then (only for fenced text) remove the opening
and closing fences and strip again. -/
def coerce_preprocess (cs : List Char) : List Char :=
  let txt := pyStrip cs
  if txt.take 3 = fenceMarker then pyStrip (stripCloseFence (stripOpenFence txt))
  else txt

/-- Python `str.find` (`none` models `-1`). -/
def py_find (cs : List Char) (c : Char) : Option Nat := cs.findIdx? (· = c)

/-- Python `str.rfind` (`none` models `-1`). -/
def py_rfind (cs : List Char) (c : Char) : Option Nat :=
  (cs.reverse.findIdx? (· = c)).map (fun i => cs.length - 1 - i)

/-- Lines 94-103 of `function_app.py`: locate the first `{` and the last
`}`; when both exist in order, try to parse the inclusive slice between
them; `none` when the braces are absent, out of order, or the candidate
does not parse. -/
def brace_extract (txt : List Char) : Option JValue :=
  match py_find txt lbraceChar, py_rfind txt rbraceChar with
  | some first, some last =>
    if first < last then json_loads ((txt.drop first).take (last + 1 - first))
    else none
  | _, _ => none

/- Python `repr` on the JSON-value universe (strings in single quotes),
used only through `py_str` in the fallback wrapper for inputs that are
neither `str` nor `dict`. -/
mutual

def py_repr : JValue → List Char
  | .null => ['N', 'o', 'n', 'e']
  | .bool true => ['T', 'r', 'u', 'e']
  | .bool false => ['F', 'a', 'l', 's', 'e']
  | .num m e => printNum m e
  | .str s => squoteChar :: s ++ [squoteChar]
  | .arr [] => ['[', ']']
  | .arr (x :: xs) => '[' :: (py_repr x ++ py_reprSep xs)
  | .obj [] => [lbraceChar, rbraceChar]
  | .obj (f :: fs) => lbraceChar :: (py_reprKV f ++ py_reprSepF fs)

def py_reprSep : List JValue → List Char
  | [] => [']']
  | y :: ys => ',' :: ' ' :: (py_repr y ++ py_reprSep ys)

def py_reprKV : List Char × JValue → List Char
  | (k, v) => squoteChar :: k ++ squoteChar :: ':' :: ' ' :: py_repr v

def py_reprSepF : List (List Char × JValue) → List Char
  | [] => [rbraceChar]
  | f :: fs => ',' :: ' ' :: (py_reprKV f ++ py_reprSepF fs)

end

/-- Python `str()` on the same universe. -/
def py_str : JValue → List Char
  | .str s => s
  | v => py_repr v

/-- `_coerce_analysis` from `function_app.py` (lines 67-105): a dict is
returned unchanged; a non-string is wrapped as `{"raw": str(value)}`;
a string is stripped, de-fenced, parsed, brace-extracted, and finally
wrapped as `{"raw": value}` (the original string) when everything
fails. Every fallible step (`json.loads`) is guarded by the code's
`try/except`, so the function itself is total. -/
def coerce_analysis (value : JValue) : JValue :=
  match value with
  | .obj _ => value
  | .str s =>
    let txt := coerce_preprocess s
    match json_loads txt with
    | some j => j
    | none =>
      match brace_extract txt with
      | some j => j
      | none => .obj [("raw".data, .str s)]
  | _ => .obj [("raw".data, .str (py_str value))]

/-- Python exceptions that the modelled code can raise; the payload is
the exception's message (`str(e)`). -/
inductive PyErr where
  | valueError : String → PyErr
  | typeError : String → PyErr
  | attributeError : String → PyErr
  | keyError : String → PyErr
  | cosmosHttpResponseError : String → PyErr
deriving Repr

/-- `str(e)` for the modelled exceptions. -/
def pyErrMsg : PyErr → String
  | .valueError m => m
  | .typeError m => m
  | .attributeError m => m
  | .keyError m => m
  | .cosmosHttpResponseError m => m

/-- `MoodDatabase.__init__` (cosmosdb_client.py lines 17-32): reads
`COSMOS_ENDPOINT`/`COSMOS_KEY` from the environment (`none` models an
unset variable) and raises `ValueError` when either is missing or
empty; the client construction itself is an external call assumed to
succeed. -/
def mood_database_init (endpoint key : Option String) : Except PyErr Unit :=
  let falsy : Option String → Bool
    | none => true
    | some s => s = ""
  if falsy endpoint || falsy key then
    .error (.valueError "COSMOS_ENDPOINT and COSMOS_KEY must be set in environment")
  else .ok ()

/-- The document built by `create_mood_entry` (cosmosdb_client.py lines
56-62). The `analysis` parameter is accepted but the stored field is
the literal `None` from the source. -/
def mood_doc (uuid user_id text timestamp : List Char) (analysis : JValue) : JValue :=
  .obj [("id".data, .str uuid), ("user_id".data, .str user_id),
        ("text".data, .str text), ("timestamp".data, .str timestamp),
        ("analysis".data, .null)]

/-- The observable outcome of `create_mood_entry`: the list of
documents durably written and the returned value (or raised error). -/
structure CreateOutcome where
  writes : List JValue
  result : Except PyErr JValue
deriving Repr

/-- `MoodDatabase.create_mood_entry` (cosmosdb_client.py lines 34-70):
builds the document (fresh `uuid` and UTC `timestamp` are inputs of the
model), performs one `create_item` call — an external write modelled by
the `writeOk` flag — and returns `created['id']`; a storage failure is
re-raised as `CosmosHttpResponseError`. No validation of any argument
is performed. -/
def create_mood_entry (uuid timestamp user_id text : List Char) (analysis : JValue)
    (writeOk : Bool) : CreateOutcome :=
  let doc := mood_doc uuid user_id text timestamp analysis
  if writeOk then { writes := [doc], result := .ok (.str uuid) }
  else { writes := [], result := .error (.cosmosHttpResponseError "create failed") }

/-- One row of the stats query
`SELECT c.analysis.label as label, c.analysis.confidence as confidence`:
either projection is omitted by the store when the path is undefined
(analysis null, or field absent), which is what the `Option`s model. -/
structure StatsItem where
  label : Option String
  confidence : Option Rat
deriving Repr

/-- The dictionary `get_mood_stats` returns. -/
inductive StatsResult where
  | stats : Nat → List (String × Nat) → Rat → Nat → StatsResult
  | errorResult : String → Nat → StatsResult
deriving Repr

/-- `[item["label"] for item in items]`: raises `KeyError` at the first
item whose projection lacks the key. -/
def extract_labels : List StatsItem → Except PyErr (List String)
  | [] => .ok []
  | it :: rest =>
    match it.label with
    | none => .error (.keyError "label")
    | some l =>
      match extract_labels rest with
      | .ok ls => .ok (l :: ls)
      | .error e => .error e

/-- Distinct labels in first-encounter order (`collections.Counter`
preserves insertion order). -/
def firstOccurrences (ls : List String) : List String :=
  ls.foldl (fun acc l => if l ∈ acc then acc else acc ++ [l]) []

/-- Stable insertion keeping strictly-greater counts first; an equal
count keeps the earlier element first, as Python's stable sort does. -/
def insertByCount (x : String × Nat) : List (String × Nat) → List (String × Nat)
  | [] => [x]
  | y :: ys => if y.2 < x.2 then x :: y :: ys else y :: insertByCount x ys

/-- `Counter(labels).most_common(3)`: counts in first-encounter order,
stably sorted by descending count, first three. -/
def most_common3 (labels : List String) : List (String × Nat) :=
  let counts := (firstOccurrences labels).map (fun l => (l, labels.count l))
  (counts.foldl (fun acc x => insertByCount x acc) []).take 3

/-- Python's `round` to the nearest integer, ties to even. -/
def roundHalfEven (q : Rat) : Int :=
  let f := q - (q.floor : Rat)
  if f < 1 / 2 then q.floor
  else if 1 / 2 < f then q.floor + 1
  else if q.floor % 2 = 0 then q.floor else q.floor + 1

/-- Python's `round(x, 1)`. -/
def round1 (q : Rat) : Rat := (roundHalfEven (10 * q) : Rat) / 10

/-- `MoodDatabase.get_mood_stats` (cosmosdb_client.py lines 144-210).
The query against the store is external: its outcome (a
`CosmosHttpResponseError` or the projected rows) is an input. The
`except` clause catches only `CosmosHttpResponseError`, turning it into
a result with an `error` field; a `KeyError` from `item["label"]`
propagates. Missing confidence defaults to `5`. -/
def get_mood_stats (user_id : String) (days : Nat)
    (query_result : Except String (List StatsItem)) : Except PyErr StatsResult :=
  match query_result with
  | .error e => .ok (.errorResult e days)
  | .ok items =>
    match items with
    | [] => .ok (.stats 0 [] 0 days)
    | _ =>
      match extract_labels items with
      | .error e => .error e
      | .ok labels =>
        let confidences := items.map (fun it => it.confidence.getD 5)
        let avg := confidences.foldl (· + ·) 0 / (confidences.length : Rat)
        .ok (.stats items.length (most_common3 labels) (round1 avg) days)

/-- An HTTP response: `func.HttpResponse` defaults to status 200; the
body is the JSON payload passed to `json.dumps`. -/
structure HttpResp where
  status : Nat
  body : JValue
deriving Repr

def resp400 (msg : String) : HttpResp :=
  { status := 400, body := .obj [("error".data, .str msg.data)] }

/-- Python truthiness on the JSON-value universe. -/
def truthy : JValue → Bool
  | .null => false
  | .bool b => b
  | .num m _ => m ≠ 0
  | .str s => !s.isEmpty
  | .arr xs => !xs.isEmpty
  | .obj fs => !fs.isEmpty

def isStrV : JValue → Bool
  | .str _ => true
  | _ => false

/-- `d.get(k)` on a parsed JSON dict: the last binding wins, absence
gives `None`. -/
def dict_get (fs : List (List Char × JValue)) (k : List Char) : JValue :=
  (fs.reverse.lookup k).getD .null

/-- `obj["key"]`-style subscription: `KeyError` on a dict without the
key, `TypeError` when string indices are not integers (the operation
`mood_entry["id"]` performs on the string `create_mood_entry`
returns). -/
def py_subscript (v : JValue) (k : List Char) : Except PyErr JValue :=
  match v with
  | .obj fs =>
    match fs.reverse.lookup k with
    | some x => .ok x
    | none => .error (.keyError (String.mk k))
  | .str _ => .error (.typeError "string indices must be integers")
  | _ => .error (.typeError "indices must be integers")

/-- The `try:` block of `mood_post` (function_app.py lines 21-121).
Inputs beyond the request body: the environment the store reads, the
raw text returned by the external generator (`genai.analyze_mood`
succeeds with `genOut`), the fresh uuid and timestamp the store
assigns, and whether the store write succeeds. Early `return`s are
`.ok`; raised exceptions are `.error`. -/
def mood_post_try (endpoint key : Option String) (rawBody genOut uuid ts : String)
    (writeOk : Bool) : Except PyErr HttpResp :=
  if rawBody = "" then .ok (resp400 "Request body is empty")
  else
    match json_loads rawBody.data with
    | none => .error (.valueError "Expecting value")
    | some req_body =>
      match req_body with
      | .null => .ok (resp400 "Request body is not valid JSON")
      | .obj fs =>
        let text := dict_get fs "text".data
        let user_id := dict_get fs "userid".data
        if !truthy text || !isStrV text then
          .ok (resp400 "Missing or invalid 'text' field")
        else if !truthy user_id || !isStrV user_id then
          .ok (resp400 "Missing or invalid 'userid' field")
        else
          let analysis := coerce_analysis (.str genOut.data)
          match mood_database_init endpoint key with
          | .error e => .error e
          | .ok _ =>
            let textS := match text with | .str s => s | _ => []
            let userS := match user_id with | .str s => s | _ => []
            let outcome := create_mood_entry uuid.data ts.data userS textS analysis writeOk
            match outcome.result with
            | .error e => .error e
            | .ok mood_entry =>
              match py_subscript mood_entry "id".data with
              | .error e => .error e
              | .ok mood_id =>
                .ok { status := 200,
                      body := .obj [("mood_id".data, mood_id),
                                    ("analysis".data, analysis)] }
      | _ => .error (.attributeError "object has no attribute get")

/-- `mood_post` with its two handlers: `except ValueError` answers 400
with the exception text embedded, any other exception answers 500
(function_app.py lines 123-136). -/
def mood_post (endpoint key : Option String) (rawBody genOut uuid ts : String)
    (writeOk : Bool) : HttpResp :=
  match mood_post_try endpoint key rawBody genOut uuid ts writeOk with
  | .ok r => r
  | .error (.valueError m) =>
    { status := 400,
      body := .obj [("error".data,
        .str ("Invalid JSON in request body: ".data ++ m.data))] }
  | .error e =>
    { status := 500,
      body := .obj [("error".data,
        .str ("Internal server error: ".data ++ (pyErrMsg e).data))] }

def isObjV : JValue → Bool
  | .obj _ => true
  | _ => false

def isNullV : JValue → Bool
  | .null => true
  | _ => false

/-- A suffix after which the number scanner is guaranteed to stop:
empty, or starting with a character that can extend no number. -/
def numStop : List Char → Bool
  | [] => true
  | c :: _ => !isDigitChar c && c ≠ '.' && c ≠ 'e' && c ≠ 'E'

/-- A triple-backtick fence with a language tag around a body, the
shape of the spec's `fence(lang, body)`. -/
def fenceWrap (lang body : List Char) : List Char :=
  fenceMarker ++ lang ++ '\n' :: body ++ '\n' :: fenceMarker

/-- Value of a digit string under the scanner's accumulator. -/
def digitsVal (acc : Nat) (ds : List Char) : Nat :=
  ds.foldl (fun a c => a * 10 + (c.toNat - 48)) acc

/-! ## Helper lemmas -/

/-- Whatever `brace_extract` returns was produced by `json_loads`. -/
theorem brace_extract_loads {t : List Char} {j : JValue}
    (h : brace_extract t = some j) : ∃ cs, json_loads cs = some j := by
  unfold brace_extract at h
  split at h
  · split at h
    · exact ⟨_, h⟩
    · cases h
  · cases h

/-- When every projected row carries a label, the comprehension
`[item["label"] for item in items]` succeeds. -/
theorem extract_labels_ok (items : List StatsItem)
    (h : ∀ it ∈ items, it.label.isSome = true) :
    ∃ ls, extract_labels items = .ok ls := by
  induction items with
  | nil => exact ⟨[], rfl⟩
  | cons a l ih =>
    obtain ⟨la, hla⟩ := Option.isSome_iff_exists.mp (h a (List.mem_cons_self a l))
    obtain ⟨ls, hls⟩ := ih (fun it hit => h it (List.mem_cons_of_mem a hit))
    exact ⟨la :: ls, by simp [extract_labels, hla, hls]⟩

/-! ## Claims -/

/-- Claim C2. The claim states that the document `create_mood_entry`
writes has its `analysis` field equal to the caller's argument. The
code builds the document with the literal `None` (cosmosdb_client.py
line 61), ignoring the `analysis` parameter entirely, contradicting its
own docstring ("analysis: AI analysis result") and its caller, which
passes the coerced analysis. This theorem evaluates the code: for every
argument, the written document's `analysis` field is null. -/
theorem c2_code_bug (uuid ts user_id text : List Char) (analysis : JValue) :
    (create_mood_entry uuid ts user_id text analysis true).writes =
      [mood_doc uuid user_id text ts analysis] ∧
    py_subscript (mood_doc uuid user_id text ts analysis) "analysis".data =
      .ok .null :=
  ⟨rfl, rfl⟩

/-- Claim C9, counterexample to the claim as stated: with empty
`userId` and empty `text` the store performs the durable write anyway
and returns the id — it raises no InvalidArgument error and rejects
nothing. -/
theorem c9_counterexample :
    (create_mood_entry "uuid-1".data "2024-01-01T00:00:00".data [] [] JValue.null
        true).writes =
      [mood_doc "uuid-1".data [] [] "2024-01-01T00:00:00".data JValue.null] ∧
    (create_mood_entry "uuid-1".data "2024-01-01T00:00:00".data [] [] JValue.null
        true).result =
      .ok (.str "uuid-1".data) :=
  ⟨rfl, rfl⟩

/-- Claim C9, amended: `create_mood_entry` validates nothing — for
every input, empty strings included, it writes the document whenever
the store accepts the write and returns the fresh id; the only failure
it surfaces is the storage error itself. Non-emptiness of
`userId`/`text` is enforced solely by the caller `mood_post`. -/
theorem c9_amended (uuid ts user_id text : List Char) (analysis : JValue)
    (writeOk : Bool) :
    (create_mood_entry uuid ts user_id text analysis writeOk).writes =
      (if writeOk then [mood_doc uuid user_id text ts analysis] else []) ∧
    (create_mood_entry uuid ts user_id text analysis writeOk).result =
      (if writeOk then .ok (.str uuid)
       else .error (.cosmosHttpResponseError "create failed")) := by
  cases writeOk <;> exact ⟨rfl, rfl⟩

/-- Claim C7, counterexample to the claim as stated: a result set with
one row whose analysis carries no label (analysis null or without a
`label` field — the store omits the projected column) makes
`get_mood_stats` raise `KeyError` at `item["label"]`, which the
`except CosmosHttpResponseError` clause does not catch. -/
theorem c7_counterexample :
    get_mood_stats "u1" 7 (.ok [⟨none, none⟩]) = .error (.keyError "label") := rfl

/-- Claim C7, amended: `get_mood_stats` returns a value with an
`error` field (instead of raising) when the underlying query fails,
and returns statistics without raising whenever every returned row
carries a label; a row lacking a label raises an uncaught KeyError. -/
theorem c7_amended (user_id : String) (days : Nat)
    (qr : Except String (List StatsItem)) :
    (∀ e, qr = .error e →
      get_mood_stats user_id days qr = .ok (.errorResult e days)) ∧
    (∀ items, qr = .ok items → (∀ it ∈ items, it.label.isSome = true) →
      ∃ r, get_mood_stats user_id days qr = .ok r) := by
  constructor
  · rintro e rfl
    rfl
  · rintro items rfl hall
    cases items with
    | nil => exact ⟨_, rfl⟩
    | cons a l =>
      obtain ⟨ls, hls⟩ := extract_labels_ok (a :: l) hall
      cases hres : get_mood_stats user_id days (.ok (a :: l)) with
      | ok r => exact ⟨r, rfl⟩
      | error e =>
        simp [get_mood_stats, hls] at hres

theorem c7_amended_witness :
    ∃ r, get_mood_stats "u1" 7 (.ok [⟨some "happy", none⟩]) = .ok r :=
  (c7_amended "u1" 7 (.ok [⟨some "happy", none⟩])).2 [⟨some "happy", none⟩] rfl
    (by decide)

/-- Claim C3: the coercion is total. Every step of `_coerce_analysis`
that can raise in Python (`json.loads`) is guarded by the function's
own `try/except`, so the model is a total function on the whole value
universe; moreover its result is always the dict input itself, a value
`json.loads` produced, or the `{"raw": ...}` fallback wrapper — never
an exception value. -/
theorem c3_total (v : JValue) :
    ∃ r, coerce_analysis v = r ∧
      ((∃ fs, v = .obj fs ∧ r = v) ∨ (∃ cs, json_loads cs = some r) ∨
        (∃ s, r = .obj [("raw".data, .str s)])) := by
  cases v with
  | null => exact ⟨_, rfl, .inr (.inr ⟨_, rfl⟩)⟩
  | bool b => exact ⟨_, rfl, .inr (.inr ⟨_, rfl⟩)⟩
  | num m e => exact ⟨_, rfl, .inr (.inr ⟨_, rfl⟩)⟩
  | arr xs => exact ⟨_, rfl, .inr (.inr ⟨_, rfl⟩)⟩
  | obj fs => exact ⟨.obj fs, rfl, .inl ⟨fs, rfl, rfl⟩⟩
  | str s =>
    cases h : json_loads (coerce_preprocess s) with
    | some jv => exact ⟨jv, by simp [coerce_analysis, h], .inr (.inl ⟨_, h⟩)⟩
    | none =>
      cases h2 : brace_extract (coerce_preprocess s) with
      | some jv =>
        exact ⟨jv, by simp [coerce_analysis, h, h2],
          .inr (.inl (brace_extract_loads h2))⟩
      | none =>
        exact ⟨_, by simp [coerce_analysis, h, h2], .inr (.inr ⟨s, rfl⟩)⟩

/-- Claim C4: on a string whose (stripped, de-fenced) text does not
parse directly, `_coerce_analysis` returns the parse of the inclusive
first-`{`-to-last-`}` slice when that exists and parses, and otherwise
returns the fallback wrapper around the original input string. -/
theorem c4_fallback (s : List Char)
    (hfail : json_loads (coerce_preprocess s) = none) :
    (∀ i j v, py_find (coerce_preprocess s) lbraceChar = some i →
      py_rfind (coerce_preprocess s) rbraceChar = some j → i < j →
      json_loads (((coerce_preprocess s).drop i).take (j + 1 - i)) = some v →
      coerce_analysis (.str s) = v) ∧
    (brace_extract (coerce_preprocess s) = none →
      coerce_analysis (.str s) = .obj [("raw".data, .str s)]) := by
  constructor
  · intro i j v hf hr hij hv
    have hbe : brace_extract (coerce_preprocess s) = some v := by
      unfold brace_extract
      rw [hf, hr]
      simp [hij, hv]
    simp [coerce_analysis, hfail, hbe]
  · intro hbe
    simp [coerce_analysis, hfail, hbe]

set_option maxRecDepth 100000 in
theorem c4_fallback_witness :
    coerce_analysis (.str "here is your answer: \x7b\"mood\":\"calm\"\x7d thanks".data) =
      .obj [("mood".data, .str "calm".data)] ∧
    coerce_analysis (.str "not json at all".data) =
      .obj [("raw".data, .str "not json at all".data)] :=
  ⟨(c4_fallback "here is your answer: \x7b\"mood\":\"calm\"\x7d thanks".data (by rfl)).1
      21 35 (.obj [("mood".data, .str "calm".data)]) (by rfl) (by rfl) (by decide)
      (by rfl),
   (c4_fallback "not json at all".data (by rfl)).2 (by rfl)⟩

/-- Claim C10 (implicit): whenever the stripped/de-fenced text parses
as JSON, `_coerce_analysis` returns the parsed value unchanged — also
when it is not a dict (`json.loads` may produce a number, array,
string or null, and line 90 returns it as is) — so the coercion result
is not always an object or the `{"raw": ...}` wrapper. -/
theorem c10_nonobject (s : List Char) (v : JValue)
    (hparse : json_loads (coerce_preprocess s) = some v)
    (hnotobj : isObjV v = false) :
    coerce_analysis (.str s) = v := by
  simp [coerce_analysis, hparse]

theorem c10_nonobject_witness :
    coerce_analysis (.str "[1, 2]".data) = .arr [.num 1 0, .num 2 0] :=
  c10_nonobject "[1, 2]".data (.arr [.num 1 0, .num 2 0]) (by rfl) (by rfl)

/-- Claim C1. The claim states that `create_mood_entry` returns the
full created record so the end-to-end POST with a fenced-JSON
generator yields 200 with `mood_id` set. The code returns only
`created['id']` (cosmosdb_client.py line 67), contradicting its own
return annotation `-> Dict[str, Any]`; `mood_post` then evaluates
`mood_entry["id"]` on that string (function_app.py line 119), raising
`TypeError`, so the successful write still answers 500. This theorem
evaluates the model at the end-to-end input: valid environment, valid
body, fenced-JSON generator output, successful write — and the
response is the 500 internal error, while the store's returned value
is the bare id string. -/
theorem c1_code_bug :
    mood_post (some "https://example.documents.azure.com") (some "cosmos-key")
        "\x7b\"text\": \"I feel great\", \"userid\": \"u1\"\x7d"
        "```json\n\x7b\"mood\": \"happy\", \"confidence\": 0.9\x7d\n```"
        "mood-uuid-1" "2024-01-01T00:00:00" true =
      { status := 500,
        body := .obj [("error".data,
          .str "Internal server error: string indices must be integers".data)] } ∧
    (create_mood_entry "mood-uuid-1".data "2024-01-01T00:00:00".data "u1".data
        "I feel great".data
        (.obj [("mood".data, .str "happy".data), ("confidence".data, .num 9 1)])
        true).result =
      .ok (.str "mood-uuid-1".data) :=
  ⟨rfl, rfl⟩

/-- Claim C6, counterexample to the claim as stated: the non-empty
body `[1, 2, 3]` does not parse as a JSON object with accessible
fields, yet `mood_post` answers 500, not 400 — `req_body.get('text')`
raises `AttributeError` on the list, caught only by the generic
`except Exception` handler. -/
theorem c6_counterexample :
    mood_post (some "https://example.documents.azure.com") (some "cosmos-key")
        "[1, 2, 3]" "raw" "mood-uuid-1" "2024-01-01T00:00:00" true =
      { status := 500,
        body := .obj [("error".data,
          .str "Internal server error: object has no attribute get".data)] } :=
  rfl

/-- Claim C6, amended: a non-empty body that is not valid JSON, or that
parses to JSON `null`, is answered with 400; but a non-empty body that
parses to a non-null, non-object JSON value (array, number, string,
boolean) raises `AttributeError` at `req_body.get('text')` and is
answered with 500. -/
theorem c6_amended (endpoint key : Option String) (rawBody genOut uuid ts : String)
    (writeOk : Bool) (hne : rawBody ≠ "") :
    (json_loads rawBody.data = none →
      mood_post endpoint key rawBody genOut uuid ts writeOk =
        { status := 400,
          body := .obj [("error".data,
            .str "Invalid JSON in request body: Expecting value".data)] }) ∧
    (json_loads rawBody.data = some .null →
      mood_post endpoint key rawBody genOut uuid ts writeOk =
        resp400 "Request body is not valid JSON") ∧
    (∀ v, json_loads rawBody.data = some v → isNullV v = false → isObjV v = false →
      mood_post endpoint key rawBody genOut uuid ts writeOk =
        { status := 500,
          body := .obj [("error".data,
            .str "Internal server error: object has no attribute get".data)] }) := by
  refine ⟨fun h => ?_, fun h => ?_, fun v h hn ho => ?_⟩
  · simp [mood_post, mood_post_try, hne, h]
  · simp [mood_post, mood_post_try, hne, h]
  · cases v with
    | null => simp [isNullV] at hn
    | obj fs => simp [isObjV] at ho
    | bool b => simp [mood_post, mood_post_try, hne, h, pyErrMsg]
    | num m e => simp [mood_post, mood_post_try, hne, h, pyErrMsg]
    | str s => simp [mood_post, mood_post_try, hne, h, pyErrMsg]
    | arr xs => simp [mood_post, mood_post_try, hne, h, pyErrMsg]

theorem c6_amended_witness :
    mood_post (some "https://example.documents.azure.com") (some "cosmos-key")
        ":::" "raw" "mood-uuid-1" "2024-01-01T00:00:00" true =
      { status := 400,
        body := .obj [("error".data,
          .str "Invalid JSON in request body: Expecting value".data)] } ∧
    mood_post (some "https://example.documents.azure.com") (some "cosmos-key")
        "42" "raw" "mood-uuid-1" "2024-01-01T00:00:00" true =
      { status := 500,
        body := .obj [("error".data,
          .str "Internal server error: object has no attribute get".data)] } :=
  ⟨(c6_amended (some "https://example.documents.azure.com") (some "cosmos-key")
      ":::" "raw" "mood-uuid-1" "2024-01-01T00:00:00" true (by decide)).1 (by rfl),
   (c6_amended (some "https://example.documents.azure.com") (some "cosmos-key")
      "42" "raw" "mood-uuid-1" "2024-01-01T00:00:00" true (by decide)).2.2
      (.num 42 0) (by rfl) (by rfl) (by rfl)⟩

/-- Claim C8, counterexample to the claim as stated: with the store
connection parameters absent from the environment, a valid mood
submission is answered with a per-request 400 response — the
`ValueError` raised by `MoodDatabase.__init__` inside the request
handler is caught by the `except ValueError` branch meant for JSON
errors — rather than the failure being fatal before serving. -/
theorem c8_counterexample :
    mood_post none none "\x7b\"text\": \"I feel great\", \"userid\": \"u1\"\x7d"
        "raw" "mood-uuid-1" "2024-01-01T00:00:00" true =
      { status := 400,
        body := .obj [("error".data,
          .str ("Invalid JSON in request body: " ++
            "COSMOS_ENDPOINT and COSMOS_KEY must be set in environment").data)] } :=
  rfl

/-- Claim C8, amended: when `COSMOS_ENDPOINT` or `COSMOS_KEY` is unset
or empty, `MoodDatabase.__init__` does raise `ValueError` before any
store operation — but the database is constructed per request inside
`mood_post`'s `try` block, after validation and generation, so every
valid mood submission under missing configuration is answered with an
HTTP 400 response embedding the configuration message, not a fatal
startup failure. -/
theorem c8_amended (endpoint key : Option String)
    (fs : List (List Char × JValue)) (rawBody genOut uuid ts : String)
    (t u : List Char) (writeOk : Bool)
    (henv : endpoint = none ∨ endpoint = some "" ∨ key = none ∨ key = some "")
    (hne : rawBody ≠ "") (hparse : json_loads rawBody.data = some (.obj fs))
    (ht : dict_get fs "text".data = .str t) (ht2 : t ≠ [])
    (hu : dict_get fs "userid".data = .str u) (hu2 : u ≠ []) :
    mood_post endpoint key rawBody genOut uuid ts writeOk =
      { status := 400,
        body := .obj [("error".data,
          .str ("Invalid JSON in request body: " ++
            "COSMOS_ENDPOINT and COSMOS_KEY must be set in environment").data)] } := by
  have hdb : mood_database_init endpoint key =
      .error (.valueError "COSMOS_ENDPOINT and COSMOS_KEY must be set in environment") := by
    rcases henv with rfl | rfl | rfl | rfl <;> simp [mood_database_init]
  simp [mood_post, mood_post_try, hne, hparse, ht, hu, truthy, isStrV, ht2, hu2, hdb]

theorem c8_amended_witness :
    mood_post none (some "cosmos-key")
        "\x7b\"text\": \"I feel great\", \"userid\": \"u1\"\x7d"
        "raw" "mood-uuid-1" "2024-01-01T00:00:00" true =
      { status := 400,
        body := .obj [("error".data,
          .str ("Invalid JSON in request body: " ++
            "COSMOS_ENDPOINT and COSMOS_KEY must be set in environment").data)] } :=
  c8_amended none (some "cosmos-key")
    [("text".data, .str "I feel great".data), ("userid".data, .str "u1".data)]
    "\x7b\"text\": \"I feel great\", \"userid\": \"u1\"\x7d" "raw" "mood-uuid-1"
    "2024-01-01T00:00:00" "I feel great".data "u1".data true (Or.inl rfl)
    (by decide) (by rfl) (by rfl) (by decide) (by rfl) (by decide)

/-! ## Digit and character facts for the print/parse round trip -/

theorem digitChar_toNat {d : Nat} (h : d < 10) : (digitChar d).toNat = 48 + d := by
  interval_cases d <;> decide

theorem isDigitChar_digitChar {d : Nat} (h : d < 10) :
    isDigitChar (digitChar d) = true := by
  interval_cases d <;> decide

theorem digit_not_jws {c : Char} (h : isDigitChar c = true) : isJWS c = false := by
  simp only [isJWS, Bool.or_eq_false_iff, decide_eq_false_iff_not]
  refine ⟨⟨⟨fun hc => ?_, fun hc => ?_⟩, fun hc => ?_⟩, fun hc => ?_⟩ <;>
    (subst hc; simp [isDigitChar] at h)

theorem digit_ne {c x : Char} (h : isDigitChar c = true)
    (hx : isDigitChar x = false) : c ≠ x := by
  intro hc
  subst hc
  rw [h] at hx
  cases hx

theorem numStop_digit {c : Char} {r : List Char} (h : numStop (c :: r) = true) :
    isDigitChar c = false ∧ c ≠ '.' ∧ c ≠ 'e' ∧ c ≠ 'E' := by
  simp only [numStop, Bool.and_eq_true, Bool.not_eq_true', decide_eq_true_eq] at h
  exact ⟨h.1.1.1, h.1.1.2, h.1.2, h.2⟩

theorem readDigits_spec (ds : List Char) (acc cnt : Nat) (rest : List Char)
    (hds : ds.all isDigitChar = true)
    (hstop : ∀ c r2, rest = c :: r2 → isDigitChar c = false) :
    readDigits acc cnt (ds ++ rest) = (digitsVal acc ds, cnt + ds.length, rest) := by
  induction ds generalizing acc cnt with
  | nil =>
    cases rest with
    | nil => rfl
    | cons c r2 =>
      simp only [List.nil_append, readDigits, hstop c r2 rfl]
      rfl
  | cons c t ih =>
    simp only [List.all_cons, Bool.and_eq_true] at hds
    simp only [List.cons_append, readDigits, hds.1, if_true, List.append_eq]
    rw [ih _ _ hds.2]
    simp [digitsVal, List.length_cons]
    omega

theorem digitsVal_acc (ds : List Char) (acc : Nat) :
    digitsVal acc ds = acc * 10 ^ ds.length + digitsVal 0 ds := by
  induction ds generalizing acc with
  | nil => simp [digitsVal]
  | cons c t ih =>
    simp only [digitsVal, List.foldl_cons] at *
    rw [ih (acc * 10 + (c.toNat - 48)), ih (0 * 10 + (c.toNat - 48))]
    ring_nf
    simp [List.length_cons, pow_succ]
    ring

theorem digitsVal_append (a b : List Char) (acc : Nat) :
    digitsVal acc (a ++ b) = digitsVal (digitsVal acc a) b := by
  simp [digitsVal, List.foldl_append]

/-- The low-to-high digit list of `n`, reversed, evaluates to `n`. -/
theorem digitsVal_natToDigitsRev (n : Nat) (acc : Nat) :
    digitsVal acc (natToDigitsRev n).reverse =
      acc * 10 ^ (natToDigitsRev n).length + n := by
  induction n using Nat.strong_induction_on generalizing acc with
  | _ n ih =>
    cases n with
    | zero => simp [natToDigitsRev, digitsVal]
    | succ m =>
      rw [natToDigitsRev]
      rw [List.reverse_cons, digitsVal_append]
      have hdiv : (m + 1) / 10 < m + 1 := Nat.div_lt_self (Nat.succ_pos m) (by decide)
      rw [ih _ hdiv acc]
      simp only [digitsVal, List.foldl_cons, List.foldl_nil, List.length_cons]
      rw [digitChar_toNat (Nat.mod_lt _ (by decide))]
      have : 48 + (m + 1) % 10 - 48 = (m + 1) % 10 := by omega
      rw [this, pow_succ]
      have := Nat.div_add_mod (m + 1) 10
      ring_nf
      omega

theorem natToDigitsRev_all (n : Nat) :
    (natToDigitsRev n).all isDigitChar = true := by
  induction n using Nat.strong_induction_on with
  | _ n ih =>
    cases n with
    | zero => simp [natToDigitsRev]
    | succ m =>
      rw [natToDigitsRev]
      simp only [List.all_cons, Bool.and_eq_true]
      exact ⟨isDigitChar_digitChar (Nat.mod_lt _ (by decide)),
        ih _ (Nat.div_lt_self (Nat.succ_pos m) (by decide))⟩

theorem natToDigits_all (n : Nat) : (natToDigits n).all isDigitChar = true := by
  unfold natToDigits
  split
  · decide
  · rw [List.all_reverse]
    exact natToDigitsRev_all n

theorem digitsVal_natToDigits (n : Nat) : digitsVal 0 (natToDigits n) = n := by
  unfold natToDigits
  split
  · simp_all [digitsVal]
    decide
  · rw [digitsVal_natToDigitsRev]
    simp

theorem natToDigits_ne_nil (n : Nat) : natToDigits n ≠ [] := by
  unfold natToDigits
  split
  · simp
  · simp only [ne_eq, List.reverse_eq_nil_iff]
    rename_i h
    cases n with
    | zero => exact absurd rfl h
    | succ m => rw [natToDigitsRev]; simp

/-- For nonzero `n` the printed digits start with a nonzero digit. -/
theorem natToDigits_head_nonzero (n : Nat) (h : n ≠ 0) :
    ∃ d t, natToDigits n = digitChar d :: t ∧ d < 10 ∧ d ≠ 0 := by
  have key : ∀ m, m ≠ 0 → ∃ d t, (natToDigitsRev m).reverse = digitChar d :: t ∧
      d < 10 ∧ d ≠ 0 := by
    intro m
    induction m using Nat.strong_induction_on with
    | _ m ih =>
      intro hm
      cases m with
      | zero => exact absurd rfl hm
      | succ k =>
        rw [natToDigitsRev, List.reverse_cons]
        by_cases hq : (k + 1) / 10 = 0
        · have hmod : (k + 1) % 10 = k + 1 := by omega
          rw [hq]
          refine ⟨(k + 1) % 10, [], ?_, Nat.mod_lt _ (by decide), by omega⟩
          simp [natToDigitsRev]
        · obtain ⟨d, t, heq, hd, hdz⟩ :=
            ih _ (Nat.div_lt_self (Nat.succ_pos k) (by decide)) hq
          exact ⟨d, t ++ [digitChar ((k + 1) % 10)], by rw [heq]; rfl, hd, hdz⟩
  unfold natToDigits
  split
  · omega
  · exact key n h

theorem digitsVal_replicate_zero (k : Nat) (acc : Nat) :
    digitsVal acc (List.replicate k (digitChar 0)) = acc * 10 ^ k := by
  induction k generalizing acc with
  | zero => simp [digitsVal]
  | succ j ih =>
    rw [List.replicate_succ]
    show digitsVal (acc * 10 + ((digitChar 0).toNat - 48))
      (List.replicate j (digitChar 0)) = _
    rw [ih]
    have h48 : (digitChar 0).toNat = 48 := digitChar_toNat (by decide)
    rw [h48]
    have h0 : acc * 10 + (48 - 48) = acc * 10 := by omega
    rw [h0, pow_succ]
    ring

theorem parseFracPart_stop (rest : List Char) (hstop : numStop rest = true) :
    parseFracPart rest = (0, 0, rest) := by
  cases rest with
  | nil => rfl
  | cons c r =>
    have := numStop_digit hstop
    simp [parseFracPart, this.2.1]

theorem parseExpPart_stop (rest : List Char) (hstop : numStop rest = true) :
    parseExpPart rest = (0, rest) := by
  cases rest with
  | nil => rfl
  | cons c r =>
    have := numStop_digit hstop
    simp [parseExpPart, this.2.2.1, this.2.2.2]

theorem all_sub {p : Char → Bool} {a b : List Char} (h : b.all p = true)
    (hs : a ⊆ b) : a.all p = true := by
  rw [List.all_eq_true] at h ⊢
  exact fun x hx => h x (hs hx)

theorem parseIntPart_nonzero (ds rest : List Char)
    (hall : ds.all isDigitChar = true)
    (hhead : ∃ d t, ds = digitChar d :: t ∧ d < 10 ∧ d ≠ 0)
    (hstop : ∀ c r2, rest = c :: r2 → isDigitChar c = false) :
    parseIntPart (ds ++ rest) = some (digitsVal 0 ds, rest) := by
  obtain ⟨d, t, rfl, hd10, hdz⟩ := hhead
  have hne0 : digitChar d ≠ '0' := by
    intro h
    have h48 : 48 + d = 48 := by
      rw [← digitChar_toNat hd10, h]
      rfl
    omega
  simp only [List.all_cons, Bool.and_eq_true] at hall
  simp only [List.cons_append, parseIntPart, hne0, if_neg, if_false, hall.1, if_true]
  rw [readDigits_spec t _ _ rest hall.2 hstop]
  simp [digitsVal]

/-- Parsing `intdigits.fracdigits` produced by the printer's pad/split,
for any digit string with a sound head. -/
theorem take_dot_drop_parse (ds2 : List Char) (e : Nat) (rest : List Char)
    (he : 0 < e) (hlen : e < ds2.length)
    (hall : ds2.all isDigitChar = true)
    (hhead : (∃ d tl, ds2 = digitChar d :: tl ∧ d < 10 ∧ d ≠ 0) ∨
      (ds2.length = e + 1 ∧ ∃ tl, ds2 = '0' :: tl))
    (hstopD : ∀ c r2, rest = c :: r2 → isDigitChar c = false) :
    parseIntPart ((ds2.take (ds2.length - e) ++ '.' :: ds2.drop (ds2.length - e)) ++ rest) =
      some (digitsVal 0 (ds2.take (ds2.length - e)),
        '.' :: (ds2.drop (ds2.length - e) ++ rest)) ∧
    parseFracPart ('.' :: (ds2.drop (ds2.length - e) ++ rest)) =
      (digitsVal 0 (ds2.drop (ds2.length - e)), e, rest) ∧
    digitsVal 0 (ds2.take (ds2.length - e)) * 10 ^ e +
      digitsVal 0 (ds2.drop (ds2.length - e)) = digitsVal 0 ds2 := by
  have hk1 : 1 ≤ ds2.length - e := by omega
  have hdropAll : (ds2.drop (ds2.length - e)).all isDigitChar = true :=
    all_sub hall (List.drop_subset _ _)
  have htakeAll : (ds2.take (ds2.length - e)).all isDigitChar = true :=
    all_sub hall (List.take_subset _ _)
  have hdropLen : (ds2.drop (ds2.length - e)).length = e := by
    rw [List.length_drop]
    omega
  have hdropNe : ds2.drop (ds2.length - e) ≠ [] := by
    intro h
    rw [h] at hdropLen
    simp at hdropLen
    omega
  have hfrac : parseFracPart ('.' :: (ds2.drop (ds2.length - e) ++ rest)) =
      (digitsVal 0 (ds2.drop (ds2.length - e)), e, rest) := by
    have hrd := readDigits_spec (ds2.drop (ds2.length - e)) 0 0 rest hdropAll hstopD
    obtain ⟨d1, dtl, hdd⟩ := List.exists_cons_of_ne_nil hdropNe
    have hd1 : isDigitChar d1 = true := by
      have h2 := hdropAll
      rw [hdd, List.all_cons, Bool.and_eq_true] at h2
      exact h2.1
    rw [hdd] at hrd hdropLen ⊢
    simp only [List.cons_append, parseFracPart, if_pos rfl, hd1, if_true]
    rw [← List.cons_append, hrd]
    simp only [List.length_cons] at hdropLen
    simp [hdropLen]
  have hval : digitsVal 0 (ds2.take (ds2.length - e)) * 10 ^ e +
      digitsVal 0 (ds2.drop (ds2.length - e)) = digitsVal 0 ds2 := by
    conv_rhs => rw [← List.take_append_drop (ds2.length - e) ds2]
    rw [digitsVal_append,
      digitsVal_acc (ds2.drop (ds2.length - e)) (digitsVal 0 (ds2.take (ds2.length - e))),
      hdropLen]
  refine ⟨?_, hfrac, hval⟩
  rcases hhead with ⟨d, tl, hds, hd10, hdz⟩ | ⟨hl1, tl, hds⟩
  · obtain ⟨j, hj⟩ : ∃ j, ds2.length - e = j + 1 := ⟨ds2.length - e - 1, by omega⟩
    have htk : ds2.take (ds2.length - e) = digitChar d :: tl.take j := by
      rw [hj, hds, List.take_succ_cons]
    rw [List.append_assoc]
    rw [parseIntPart_nonzero _ _ htakeAll ⟨d, tl.take j, htk, hd10, hdz⟩
      (by intro c r2 h; cases h; decide)]
    rfl
  · have hk : ds2.length - e = 1 := by omega
    have htk : ds2.take (ds2.length - e) = ['0'] := by
      rw [hk, hds, List.take_succ_cons]
      simp
    rw [List.append_assoc, htk]
    simp [parseIntPart, digitsVal]

theorem parseNumber_neg_head (X : List Char) :
    parseNumber ('-' :: X) =
      match parseIntPart X with
      | none => none
      | some (ip, cs2) =>
        let fr := parseFracPart cs2
        let er := parseExpPart fr.2.2
        some (mkNum true (ip * 10 ^ fr.2.1 + fr.1) fr.2.1 er.1, er.2) := by
  simp [parseNumber]

theorem parseNumber_no_sign (X : List Char) (h : ∀ c r, X = c :: r → c ≠ '-') :
    parseNumber X =
      match parseIntPart X with
      | none => none
      | some (ip, cs2) =>
        let fr := parseFracPart cs2
        let er := parseExpPart fr.2.2
        some (mkNum false (ip * 10 ^ fr.2.1 + fr.1) fr.2.1 er.1, er.2) := by
  cases X with
  | nil => rfl
  | cons c r => simp [parseNumber, h c r rfl]

theorem mkNum_zero_neg (n : Nat) : mkNum true (n * 10 ^ 0 + 0) 0 0 = .num (-(n : Int)) 0 := by
  simp [mkNum]

theorem mkNum_zero_pos (n : Nat) : mkNum false (n * 10 ^ 0 + 0) 0 0 = .num (n : Int) 0 := by
  simp [mkNum]

theorem mkNum_frac_neg (n e : Nat) (he : 0 < e) :
    mkNum true n e 0 = .num (-(n : Int)) e := by
  have hcond : ¬ ((0 : Int) ≤ 0 - (e : Int)) := by omega
  simp only [mkNum, if_neg hcond, if_true, JValue.num.injEq]
  constructor
  · trivial
  · omega

theorem mkNum_frac_pos (n e : Nat) (he : 0 < e) :
    mkNum false n e 0 = .num (n : Int) e := by
  have hcond : ¬ ((0 : Int) ≤ 0 - (e : Int)) := by omega
  simp only [mkNum, if_neg hcond, JValue.num.injEq]
  constructor
  · simp
  · omega

theorem parseNumber_print (m : Int) (e : Nat) (rest : List Char)
    (hstop : numStop rest = true) :
    parseNumber (printNum m e ++ rest) = some (.num m e, rest) := by
  have hstopD : ∀ c r2, rest = c :: r2 → isDigitChar c = false := by
    intro c r2 h
    subst h
    exact (numStop_digit hstop).1
  have hfr := parseFracPart_stop rest hstop
  have hex := parseExpPart_stop rest hstop
  rcases Nat.eq_zero_or_pos e with he | he
  · subst he
    have hpr : printNum m 0 = (if m < 0 then ['-'] else []) ++ natToDigits m.natAbs := by
      simp [printNum]
    rcases Nat.eq_zero_or_pos m.natAbs with hn0 | hn0
    · have hm0 : m = 0 := by omega
      subst hm0
      rw [hpr]
      simp only [natToDigits, if_pos rfl]
      norm_num
      have hd0 : digitChar 0 = '0' := by decide
      rw [hd0]
      rw [parseNumber_no_sign _ (by rintro c r ⟨⟩; decide)]
      simp only [parseIntPart, if_true, hfr, hex]
      rw [mkNum_zero_pos 0]
      rfl
    · obtain ⟨d, t, hds, hd10, hdz⟩ := natToDigits_head_nonzero m.natAbs (by omega)
      have hip : parseIntPart (natToDigits m.natAbs ++ rest) = some (m.natAbs, rest) := by
        rw [parseIntPart_nonzero _ _ (natToDigits_all _) ⟨d, t, hds, hd10, hdz⟩ hstopD,
          digitsVal_natToDigits]
      have hheadne : ∀ c r, natToDigits m.natAbs ++ rest = c :: r → c ≠ '-' := by
        intro c r heq
        rw [hds] at heq
        cases heq
        exact digit_ne (isDigitChar_digitChar hd10) (by decide)
      by_cases hm : m < 0
      · rw [hpr, if_pos hm]
        simp only [List.cons_append, List.nil_append]
        rw [parseNumber_neg_head, hip]
        simp only [hfr, hex]
        rw [mkNum_zero_neg]
        have hmm : -((m.natAbs : Int)) = m := by omega
        rw [hmm]
      · rw [hpr, if_neg hm, List.nil_append,
          parseNumber_no_sign _ hheadne, hip]
        simp only [hfr, hex]
        rw [mkNum_zero_pos]
        have hmm : ((m.natAbs : Int)) = m := by omega
        rw [hmm]
  · have he0 : ¬ e = 0 := by omega
    have hL1 : 1 ≤ (natToDigits m.natAbs).length := by
      cases h : natToDigits m.natAbs with
      | nil => exact absurd h (natToDigits_ne_nil _)
      | cons a l => simp
    have hpr : printNum m e = (if m < 0 then ['-'] else []) ++
        ((List.replicate (e + 1 - (natToDigits m.natAbs).length) (digitChar 0) ++
          natToDigits m.natAbs).take
          ((List.replicate (e + 1 - (natToDigits m.natAbs).length) (digitChar 0) ++
            natToDigits m.natAbs).length - e) ++
          '.' :: (List.replicate (e + 1 - (natToDigits m.natAbs).length) (digitChar 0) ++
            natToDigits m.natAbs).drop
            ((List.replicate (e + 1 - (natToDigits m.natAbs).length) (digitChar 0) ++
              natToDigits m.natAbs).length - e)) := by
      simp only [printNum, if_neg he0]
      rw [List.append_assoc]
    set ds2 := List.replicate (e + 1 - (natToDigits m.natAbs).length) (digitChar 0) ++
      natToDigits m.natAbs with hds2
    have hlen2 : ds2.length = e + 1 - (natToDigits m.natAbs).length +
        (natToDigits m.natAbs).length := by
      simp [hds2]
    have hgt : e < ds2.length := by omega
    have hall2 : ds2.all isDigitChar = true := by
      rw [hds2, List.all_append, Bool.and_eq_true]
      constructor
      · rw [List.all_eq_true]
        intro x hx
        rw [List.eq_of_mem_replicate hx]
        decide
      · exact natToDigits_all _
    have hhead : (∃ d tl, ds2 = digitChar d :: tl ∧ d < 10 ∧ d ≠ 0) ∨
        (ds2.length = e + 1 ∧ ∃ tl, ds2 = '0' :: tl) := by
      by_cases hpad : (natToDigits m.natAbs).length < e + 1
      · right
        constructor
        · omega
        · obtain ⟨j, hj⟩ : ∃ j, e + 1 - (natToDigits m.natAbs).length = j + 1 :=
            ⟨e - (natToDigits m.natAbs).length, by omega⟩
          refine ⟨List.replicate j (digitChar 0) ++ natToDigits m.natAbs, ?_⟩
          rw [hds2, hj, List.replicate_succ]
          have hd0 : digitChar 0 = '0' := by decide
          rw [hd0]
          rfl
      · left
        have hrep0 : e + 1 - (natToDigits m.natAbs).length = 0 := by omega
        have hds2x : ds2 = natToDigits m.natAbs := by
          rw [hds2, hrep0]
          rfl
        have hn0 : m.natAbs ≠ 0 := by
          intro h0
          rw [h0] at hpad
          have hone : natToDigits 0 = [digitChar 0] := by simp [natToDigits]
          rw [hone] at hpad
          simp at hpad
          omega
        obtain ⟨d, t, hds, hd10, hdz⟩ := natToDigits_head_nonzero m.natAbs hn0
        exact ⟨d, t, by rw [hds2x, hds], hd10, hdz⟩
    obtain ⟨hip, hfr2, hval⟩ :=
      take_dot_drop_parse ds2 e rest he hgt hall2 hhead hstopD
    have hvds : digitsVal 0 ds2 = m.natAbs := by
      rw [hds2, digitsVal_append, digitsVal_replicate_zero]
      norm_num
      exact digitsVal_natToDigits _
    have hmant : digitsVal 0 (ds2.take (ds2.length - e)) * 10 ^ e +
        digitsVal 0 (ds2.drop (ds2.length - e)) = m.natAbs := by
      rw [hval, hvds]
    have htkhead : ∃ c0 t0, ds2.take (ds2.length - e) = c0 :: t0 ∧
        isDigitChar c0 = true := by
      rcases hhead with ⟨d, tl, hds, hd10, _⟩ | ⟨_, tl, hds⟩
      · obtain ⟨j, hj⟩ : ∃ j, ds2.length - e = j + 1 := ⟨ds2.length - e - 1, by omega⟩
        exact ⟨digitChar d, tl.take j, by rw [hj, hds, List.take_succ_cons],
          isDigitChar_digitChar hd10⟩
      · obtain ⟨j, hj⟩ : ∃ j, ds2.length - e = j + 1 := ⟨ds2.length - e - 1, by omega⟩
        exact ⟨'0', tl.take j, by rw [hj, hds, List.take_succ_cons], by decide⟩
    rw [hpr]
    by_cases hm : m < 0
    · rw [if_pos hm]
      simp only [List.cons_append, List.nil_append]
      rw [parseNumber_neg_head, hip]
      simp only [hfr2, hex]
      rw [hmant, mkNum_frac_neg _ _ he]
      have hmm : -((m.natAbs : Int)) = m := by omega
      rw [hmm]
    · rw [if_neg hm, List.nil_append, parseNumber_no_sign _ ?hne, hip]
      case hne =>
        intro c r heq
        obtain ⟨c0, t0, htk, hc0⟩ := htkhead
        rw [htk] at heq
        simp only [List.cons_append] at heq
        cases heq
        exact digit_ne hc0 (by decide)
      simp only [hfr2, hex]
      rw [hmant, mkNum_frac_pos _ _ he]
      have hmm : ((m.natAbs : Int)) = m := by omega
      rw [hmm]

theorem parseStringBody_escape (s rest : List Char) (hok : s.all okChar = true) :
    parseStringBody (escapeChars s ++ quoteChar :: rest) = some (s, rest) := by
  induction s with
  | nil =>
    simp only [escapeChars, List.nil_append]
    unfold parseStringBody
    simp
  | cons c t ih =>
    simp only [List.all_cons, Bool.and_eq_true] at hok
    have iht := ih hok.2
    simp only [escapeChars, List.append_assoc]
    by_cases h1 : c = quoteChar
    · subst h1
      simp only [escChar, if_pos rfl, List.cons_append, List.nil_append]
      unfold parseStringBody
      simp +decide [unescapeChar, iht]
    · by_cases h2 : c = backslashChar
      · subst h2
        simp only [escChar, if_neg h1, if_pos rfl, List.cons_append, List.nil_append]
        unfold parseStringBody
        simp +decide [unescapeChar, iht, h1]
      · by_cases h3 : c = '\n'
        · subst h3
          simp only [escChar, if_neg h1, if_neg h2, if_pos rfl, List.cons_append,
            List.nil_append]
          unfold parseStringBody
          simp +decide [unescapeChar, iht]
        · by_cases h4 : c = '\t'
          · subst h4
            simp only [escChar, if_neg h1, if_neg h2, if_neg h3, if_pos rfl,
              List.cons_append, List.nil_append]
            unfold parseStringBody
            simp +decide [unescapeChar, iht]
          · by_cases h5 : c = '\r'
            · subst h5
              simp only [escChar, if_neg h1, if_neg h2, if_neg h3, if_neg h4,
                if_pos rfl, List.cons_append, List.nil_append]
              unfold parseStringBody
              simp +decide [unescapeChar, iht]
            · by_cases h6 : c = Char.ofNat 8
              · subst h6
                simp only [escChar, if_neg h1, if_neg h2, if_neg h3, if_neg h4,
                  if_neg h5, if_pos rfl, List.cons_append, List.nil_append]
                unfold parseStringBody
                simp +decide [unescapeChar, iht]
              · by_cases h7 : c = Char.ofNat 12
                · subst h7
                  simp only [escChar, if_neg h1, if_neg h2, if_neg h3, if_neg h4,
                    if_neg h5, if_neg h6, if_pos rfl, List.cons_append,
                    List.nil_append]
                  unfold parseStringBody
                  simp +decide [unescapeChar, iht]
                · have hge : 32 ≤ c.toNat := by
                    have h := hok.1
                    simp only [okChar, Bool.or_eq_true, decide_eq_true_eq] at h
                    rcases h with ((((h | h) | h) | h) | h) | h
                    · exact h
                    · exact absurd h h3
                    · exact absurd h h4
                    · exact absurd h h5
                    · exact absurd h h6
                    · exact absurd h h7
                  have hlt : ¬ (c.toNat < 32) := by omega
                  simp only [escChar, if_neg h1, if_neg h2, if_neg h3, if_neg h4,
                    if_neg h5, if_neg h6, if_neg h7, List.cons_append,
                    List.nil_append]
                  unfold parseStringBody
                  simp [h1, h2, hlt, iht]

theorem skipWS_cons_false {c : Char} (h : isJWS c = false) (r : List Char) :
    skipWS (c :: r) = c :: r := by
  simp [skipWS, List.dropWhile_cons, h]

theorem parseValue_skip_ws (fuel : Nat) {c : Char} (h : isJWS c = true)
    (cs : List Char) : parseValue fuel (c :: cs) = parseValue fuel cs := by
  cases fuel with
  | zero => rfl
  | succ g =>
    simp only [parseValue]
    rw [show skipWS (c :: cs) = skipWS cs by simp [skipWS, List.dropWhile_cons, h]]

theorem sizeV_pos (v : JValue) : 1 ≤ sizeV v := by
  cases v <;> simp [sizeV]

theorem sizeList_pos (xs : List JValue) : 1 ≤ sizeList xs := by
  cases xs <;> simp [sizeList]

theorem sizeFields_pos (fs : List (List Char × JValue)) : 1 ≤ sizeFields fs := by
  cases fs with
  | nil => simp [sizeFields]
  | cons f fs => cases f; simp [sizeFields]

theorem parseElems_close (fuel : Nat) (rest : List Char) (h : 1 ≤ fuel) :
    parseElems fuel (']' :: rest) = some ([], rest) := by
  cases fuel with
  | zero => omega
  | succ g =>
    simp only [parseElems]
    rw [skipWS_cons_false (by decide)]
    simp

theorem parseMembers_close (fuel : Nat) (rest : List Char) (h : 1 ≤ fuel) :
    parseMembers fuel (rbraceChar :: rest) = some ([], rest) := by
  cases fuel with
  | zero => omega
  | succ g =>
    simp only [parseMembers]
    rw [skipWS_cons_false (by decide)]
    simp

theorem numStop_sepElems (xs : List JValue) (rest : List Char) :
    numStop (printSepElems xs ++ rest) = true := by
  cases xs <;> rfl

theorem numStop_sepFields (fs : List (List Char × JValue)) (rest : List Char) :
    numStop (printSepFields fs ++ rest) = true := by
  cases fs <;> rfl

/-- The first character of a printed number is a sign or a digit. -/
theorem printNum_head (m : Int) (e : Nat) :
    ∃ c t, printNum m e = c :: t ∧ (c = '-' ∨ isDigitChar c = true) := by
  have hL1 : 1 ≤ (natToDigits m.natAbs).length := by
    cases h : natToDigits m.natAbs with
    | nil => exact absurd h (natToDigits_ne_nil _)
    | cons a l => simp
  by_cases hm : m < 0
  · simp only [printNum, if_pos hm]
    split
    · exact ⟨'-', _, rfl, Or.inl rfl⟩
    · exact ⟨'-', _, rfl, Or.inl rfl⟩
  · obtain ⟨a, l, hds⟩ : ∃ a l, natToDigits m.natAbs = a :: l := by
      cases h : natToDigits m.natAbs with
      | nil => exact absurd h (natToDigits_ne_nil _)
      | cons a l => exact ⟨a, l, rfl⟩
    have hadig : isDigitChar a = true := by
      have := natToDigits_all m.natAbs
      rw [hds, List.all_cons, Bool.and_eq_true] at this
      exact this.1
    rcases Nat.eq_zero_or_pos e with he | he
    · subst he
      refine ⟨a, l, ?_, Or.inr hadig⟩
      simp only [printNum, if_neg hm, if_pos rfl, List.nil_append]
      exact hds
    · have he0 : ¬ e = 0 := by omega
      simp only [printNum, if_neg hm, if_neg he0, List.nil_append]
      set ds2 := List.replicate (e + 1 - (natToDigits m.natAbs).length) (digitChar 0) ++
        natToDigits m.natAbs with hds2
      have hlen2 : ds2.length = e + 1 - (natToDigits m.natAbs).length +
          (natToDigits m.natAbs).length := by
        simp [hds2]
      obtain ⟨c0, tl0, hcons⟩ : ∃ c0 tl0, ds2 = c0 :: tl0 := by
        cases h : ds2 with
        | nil => rw [h] at hlen2; simp at hlen2; omega
        | cons c0 tl0 => exact ⟨c0, tl0, rfl⟩
      have hc0 : isDigitChar c0 = true := by
        have hall2 : ds2.all isDigitChar = true := by
          rw [hds2, List.all_append, Bool.and_eq_true]
          constructor
          · rw [List.all_eq_true]
            intro x hx
            rw [List.eq_of_mem_replicate hx]
            decide
          · exact natToDigits_all _
        rw [hcons, List.all_cons, Bool.and_eq_true] at hall2
        exact hall2.1
      obtain ⟨j, hj⟩ : ∃ j, ds2.length - e = j + 1 := ⟨ds2.length - e - 1, by omega⟩
      refine ⟨c0, tl0.take j ++ '.' :: ds2.drop (ds2.length - e), ?_, Or.inr hc0⟩
      rw [hj, hcons, List.take_succ_cons]
      rfl

/-- Printed values start with a character the scanner dispatches on
correctly: not whitespace and not a closing bracket. -/
theorem printV_head (v : JValue) :
    ∃ c t, printV v = c :: t ∧ isJWS c = false ∧ c ≠ ']' := by
  cases v with
  | null => exact ⟨'n', _, rfl, by decide, by decide⟩
  | bool b => cases b
              · exact ⟨'f', _, rfl, by decide, by decide⟩
              · exact ⟨'t', _, rfl, by decide, by decide⟩
  | num m e =>
    obtain ⟨c, t, heq, hc⟩ := printNum_head m e
    refine ⟨c, t, heq, ?_, ?_⟩
    · rcases hc with rfl | hd
      · decide
      · exact digit_not_jws hd
    · rcases hc with rfl | hd
      · decide
      · exact digit_ne hd (by decide)
  | str s => exact ⟨quoteChar, _, rfl, by decide, by decide⟩
  | arr xs =>
    cases xs with
    | nil => exact ⟨'[', _, rfl, by decide, by decide⟩
    | cons x xs => exact ⟨'[', _, rfl, by decide, by decide⟩
  | obj fs =>
    cases fs with
    | nil => exact ⟨lbraceChar, _, rfl, by decide, by decide⟩
    | cons f fs => exact ⟨lbraceChar, _, rfl, by decide, by decide⟩

/-- The scanner re-reads every printed value: all five parser entry
points, simultaneously, by induction on the fuel budget. -/
theorem parse_print_round_trip : ∀ fuel : Nat,
    (∀ v rest, wfV v = true → sizeV v ≤ fuel → numStop rest = true →
      parseValue fuel (printV v ++ rest) = some (v, rest)) ∧
    (∀ x xs rest, wfList (x :: xs) = true → sizeList (x :: xs) ≤ fuel →
      parseElems fuel (printV x ++ (printSepElems xs ++ rest)) = some (x :: xs, rest)) ∧
    (∀ xs rest, wfList xs = true → sizeList xs ≤ fuel →
      parseElemsTail fuel (printSepElems xs ++ rest) = some (xs, rest)) ∧
    (∀ k v fs rest, wfFields ((k, v) :: fs) = true →
      sizeFields ((k, v) :: fs) ≤ fuel →
      parseMembers fuel (printKV (k, v) ++ (printSepFields fs ++ rest)) =
        some ((k, v) :: fs, rest)) ∧
    (∀ fs rest, wfFields fs = true → sizeFields fs ≤ fuel →
      parseMembersTail fuel (printSepFields fs ++ rest) = some (fs, rest)) := by
  intro fuel
  induction fuel with
  | zero =>
    refine ⟨?_, ?_, ?_, ?_, ?_⟩
    · intro v rest _ hsz _
      have := sizeV_pos v
      omega
    · intro x xs rest _ hsz
      have := sizeList_pos (x :: xs)
      omega
    · intro xs rest _ hsz
      have := sizeList_pos xs
      omega
    · intro k v fs rest _ hsz
      have := sizeFields_pos ((k, v) :: fs)
      omega
    · intro fs rest _ hsz
      have := sizeFields_pos fs
      omega
  | succ g ih =>
    obtain ⟨ih1, ih3, ih4, ih6, ih7⟩ := ih
    refine ⟨?_, ?_, ?_, ?_, ?_⟩
    · intro v rest hwf hsz hstop
      cases v with
      | null =>
        simp +decide [printV, parseValue, skipWS, List.dropWhile_cons]
      | bool b =>
        cases b <;> simp +decide [printV, parseValue, skipWS, List.dropWhile_cons]
      | num m e =>
        simp only [printV]
        obtain ⟨c, t, heq, hc⟩ := printNum_head m e
        have hws : isJWS c = false := by
          rcases hc with rfl | hd
          · decide
          · exact digit_not_jws hd
        have hlb : c ≠ lbraceChar := by
          rcases hc with rfl | hd
          · decide
          · exact digit_ne hd (by decide)
        have hbk : c ≠ '[' := by
          rcases hc with rfl | hd
          · decide
          · exact digit_ne hd (by decide)
        have hqt : c ≠ quoteChar := by
          rcases hc with rfl | hd
          · decide
          · exact digit_ne hd (by decide)
        have hcn : c ≠ 'n' := by
          rcases hc with rfl | hd
          · decide
          · exact digit_ne hd (by decide)
        have hct : c ≠ 't' := by
          rcases hc with rfl | hd
          · decide
          · exact digit_ne hd (by decide)
        have hcf : c ≠ 'f' := by
          rcases hc with rfl | hd
          · decide
          · exact digit_ne hd (by decide)
        rw [heq]
        simp only [List.cons_append, parseValue]
        rw [skipWS_cons_false hws]
        simp only [if_neg hlb, if_neg hbk, if_neg hqt]
        split
        · rename_i r2 heq2
          exfalso
          injection heq2 with h1 _
          exact hcn h1
        · rename_i r2 heq2
          exfalso
          injection heq2 with h1 _
          exact hct h1
        · rename_i r2 heq2
          exfalso
          injection heq2 with h1 _
          exact hcf h1
        · rw [if_pos hc, ← List.cons_append, ← heq]
          exact parseNumber_print m e rest hstop
      | str s =>
        simp only [wfV] at hwf
        have e1 := parseStringBody_escape s rest hwf
        simp +decide [printV, printStr, parseValue, skipWS, List.dropWhile_cons, e1,
          List.cons_append, List.append_assoc, List.singleton_append]
      | arr xs =>
        cases xs with
        | nil =>
          have hclose := parseElems_close g rest (by
            simp only [sizeV, sizeList] at hsz
            omega)
          simp +decide [printV, parseValue, skipWS, List.dropWhile_cons, hclose]
        | cons x xs =>
          simp only [wfV] at hwf
          simp only [sizeV] at hsz
          have e1 := ih3 x xs rest hwf (by omega)
          simp +decide [printV, parseValue, skipWS, List.dropWhile_cons, e1,
            List.cons_append, List.append_assoc]
      | obj fs =>
        cases fs with
        | nil =>
          have hclose := parseMembers_close g rest (by
            simp only [sizeV, sizeFields] at hsz
            omega)
          simp +decide [printV, parseValue, skipWS, List.dropWhile_cons, hclose]
        | cons f fs =>
          obtain ⟨k, v⟩ := f
          simp only [wfV] at hwf
          simp only [sizeV] at hsz
          have e1 := ih6 k v fs rest hwf (by omega)
          simp +decide [printV, parseValue, skipWS, List.dropWhile_cons, e1,
            List.cons_append, List.append_assoc]
    · intro x xs rest hwf hsz
      simp only [wfList, Bool.and_eq_true] at hwf
      simp only [sizeList] at hsz
      obtain ⟨c, t, heq, hws, hbr⟩ := printV_head x
      have e1 := ih1 x (printSepElems xs ++ rest) hwf.1
        (by omega) (numStop_sepElems xs rest)
      have e2 := ih4 xs rest hwf.2 (by omega)
      rw [show printV x ++ (printSepElems xs ++ rest) =
        c :: (t ++ (printSepElems xs ++ rest)) from by rw [heq]; rfl]
      simp only [parseElems]
      rw [skipWS_cons_false hws]
      simp only [if_neg hbr]
      rw [show c :: (t ++ (printSepElems xs ++ rest)) =
        printV x ++ (printSepElems xs ++ rest) from by rw [heq]; rfl]
      simp only [e1, e2]
    · intro xs rest hwf hsz
      cases xs with
      | nil =>
        simp +decide [printSepElems, parseElemsTail, skipWS, List.dropWhile_cons]
      | cons y ys =>
        simp only [wfList, Bool.and_eq_true] at hwf
        simp only [sizeList] at hsz
        have e1 := ih1 y (printSepElems ys ++ rest) hwf.1
          (by omega) (numStop_sepElems ys rest)
        have e2 := ih4 ys rest hwf.2 (by omega)
        have eskip := parseValue_skip_ws g (by decide : isJWS ' ' = true)
          (printV y ++ (printSepElems ys ++ rest))
        simp +decide [printSepElems, parseElemsTail, skipWS, List.dropWhile_cons,
          List.cons_append, List.append_assoc, eskip, e1, e2]
    · intro k v fs rest hwf hsz
      simp only [wfFields, Bool.and_eq_true] at hwf
      simp only [sizeFields] at hsz
      have e0 := parseStringBody_escape k
        (':' :: ' ' :: (printV v ++ (printSepFields fs ++ rest))) hwf.1.1
      have e1 := ih1 v (printSepFields fs ++ rest) hwf.1.2
        (by omega) (numStop_sepFields fs rest)
      have e2 := ih7 fs rest hwf.2 (by omega)
      have eskip := parseValue_skip_ws g (by decide : isJWS ' ' = true)
        (printV v ++ (printSepFields fs ++ rest))
      simp +decide [printKV, printStr, parseMembers, skipWS, List.dropWhile_cons,
        List.cons_append, List.append_assoc, List.singleton_append,
        e0, e1, e2, eskip]
    · intro fs rest hwf hsz
      cases fs with
      | nil =>
        simp +decide [printSepFields, parseMembersTail, skipWS, List.dropWhile_cons]
      | cons f fs =>
        obtain ⟨k, v⟩ := f
        simp only [wfFields, Bool.and_eq_true] at hwf
        simp only [sizeFields] at hsz
        have e0 := parseStringBody_escape k
          (':' :: ' ' :: (printV v ++ (printSepFields fs ++ rest))) hwf.1.1
        have e1 := ih1 v (printSepFields fs ++ rest) hwf.1.2
          (by omega) (numStop_sepFields fs rest)
        have e2 := ih7 fs rest hwf.2 (by omega)
        have eskip := parseValue_skip_ws g (by decide : isJWS ' ' = true)
          (printV v ++ (printSepFields fs ++ rest))
        simp +decide [printKV, printStr, printSepFields, parseMembersTail,
          skipWS, List.dropWhile_cons, List.cons_append, List.append_assoc,
          List.singleton_append, e0, e1, e2, eskip]

theorem printV_length_pos (v : JValue) : 1 ≤ (printV v).length := by
  obtain ⟨c, t, heq, _, _⟩ := printV_head v
  rw [heq]
  simp

/-- The scanner's fuel need is dominated by twice the printed length. -/
theorem size_le_print : ∀ n : Nat,
    (∀ v, sizeV v ≤ n → sizeV v ≤ 2 * (printV v).length) ∧
    (∀ xs, sizeList xs ≤ n → sizeList xs ≤ 2 * (printSepElems xs).length + 1) ∧
    (∀ fs, sizeFields fs ≤ n →
      sizeFields fs ≤ 2 * (printSepFields fs).length + 1) := by
  intro n
  induction n with
  | zero =>
    refine ⟨?_, ?_, ?_⟩
    · intro v hsz
      have := sizeV_pos v
      omega
    · intro xs hsz
      have := sizeList_pos xs
      omega
    · intro fs hsz
      have := sizeFields_pos fs
      omega
  | succ g ih =>
    obtain ⟨ihV, ihL, ihF⟩ := ih
    refine ⟨?_, ?_, ?_⟩
    · intro v hsz
      cases v with
      | null => simp [sizeV, printV]
      | bool b => cases b <;> simp [sizeV, printV]
      | num m e =>
        have := printV_length_pos (.num m e)
        simp only [sizeV]
        omega
      | str s =>
        have := printV_length_pos (.str s)
        simp only [sizeV]
        omega
      | arr xs =>
        cases xs with
        | nil => simp [sizeV, sizeList, printV]
        | cons x xs =>
          simp only [sizeV, sizeList] at hsz ⊢
          have h1 := ihV x (by omega)
          have h2 := ihL xs (by omega)
          have h3 := printV_length_pos x
          simp only [printV, List.length_cons, List.length_append]
          omega
      | obj fs =>
        cases fs with
        | nil => simp [sizeV, sizeFields, printV]
        | cons f fs =>
          obtain ⟨k, v⟩ := f
          simp only [sizeV, sizeFields] at hsz ⊢
          have h1 := ihV v (by omega)
          have h2 := ihF fs (by omega)
          have h3 := printV_length_pos v
          simp only [printV, printKV, printStr, List.length_cons,
            List.length_append]
          omega
    · intro xs hsz
      cases xs with
      | nil => simp [sizeList, printSepElems]
      | cons y ys =>
        simp only [sizeList] at hsz ⊢
        have h1 := ihV y (by omega)
        have h2 := ihL ys (by omega)
        have h3 := printV_length_pos y
        simp only [printSepElems, List.length_cons, List.length_append]
        omega
    · intro fs hsz
      cases fs with
      | nil => simp [sizeFields, printSepFields]
      | cons f fs =>
        obtain ⟨k, v⟩ := f
        simp only [sizeFields] at hsz ⊢
        have h1 := ihV v (by omega)
        have h2 := ihF fs (by omega)
        have h3 := printV_length_pos v
        simp only [printSepFields, printKV, printStr, List.length_cons,
          List.length_append]
        omega

/-- `json.loads` inverts `json.dumps` on well-formed values. -/
theorem json_loads_print (v : JValue) (hwf : wfV v = true) :
    json_loads (printV v) = some v := by
  have hb := (size_le_print (sizeV v)).1 v (le_refl _)
  have h := (parse_print_round_trip (2 * (printV v).length + 2)).1 v [] hwf
    (by omega) rfl
  rw [List.append_nil] at h
  unfold json_loads
  rw [h]
  simp [skipWS]

/-- Dropping while a predicate holds skips any prefix on which it holds
everywhere. -/
theorem dropWhile_append_all {p : Char → Bool} {a : List Char}
    (hall : a.all p = true) (b : List Char) :
    List.dropWhile p (a ++ b) = List.dropWhile p b := by
  induction a with
  | nil => rfl
  | cons c t ih =>
    simp only [List.all_cons, Bool.and_eq_true] at hall
    simp only [List.cons_append, List.dropWhile_cons, hall.1, if_true]
    exact ih hall.2

/-- A list whose last character is not Python whitespace survives a right
strip. -/
theorem dropRightWhilePy_eq_self {cs : List Char} {c : Char} {r : List Char}
    (hr : cs.reverse = c :: r) (hc : isPyWS c = false) :
    dropRightWhilePy cs = cs := by
  unfold dropRightWhilePy
  rw [hr, List.dropWhile_cons, if_neg (by simp [hc])]
  rw [← hr, List.reverse_reverse]

/-- A list whose first and last characters are not Python whitespace
survives `strip()`. -/
theorem pyStrip_eq_self {cs : List Char} {c0 : Char} {t : List Char}
    {c1 : Char} {r : List Char}
    (h0 : cs = c0 :: t) (hw0 : isPyWS c0 = false)
    (h1 : cs.reverse = c1 :: r) (hw1 : isPyWS c1 = false) :
    pyStrip cs = cs := by
  unfold pyStrip
  rw [h0, List.dropWhile_cons, if_neg (by simp [hw0]), ← h0]
  exact dropRightWhilePy_eq_self h1 hw1

/-- The printed remainder of an object always ends with the closing
brace. -/
theorem printSepFields_last (fs : List (List Char × JValue)) :
    ∃ t, printSepFields fs = t ++ [rbraceChar] := by
  induction fs with
  | nil => exact ⟨[], rfl⟩
  | cons f fs ih =>
    obtain ⟨t, ht⟩ := ih
    exact ⟨',' :: ' ' :: (printKV f ++ t), by simp [printSepFields, ht]⟩

/-- A printed object starts with `\x7b` and ends with `\x7d`. -/
theorem printV_obj_shape (fs : List (List Char × JValue)) :
    ∃ t1 t2, printV (.obj fs) = lbraceChar :: t1 ∧
      printV (.obj fs) = t2 ++ [rbraceChar] := by
  cases fs with
  | nil => exact ⟨[rbraceChar], [lbraceChar], rfl, rfl⟩
  | cons f fs =>
    obtain ⟨t, ht⟩ := printSepFields_last fs
    refine ⟨printKV f ++ printSepFields fs,
      lbraceChar :: (printKV f ++ t), rfl, ?_⟩
    simp [printV, ht]

/-- The opening-fence regex removes exactly the marker, tag and newline of
a fenced block. -/
theorem stripOpenFence_fence (lang body : List Char)
    (hlang : lang.all isFenceTag = true) :
    stripOpenFence (fenceWrap lang body) = body ++ '\n' :: fenceMarker := by
  have hassoc : fenceWrap lang body
      = fenceMarker ++ (lang ++ (('\n' :: body) ++ ('\n' :: fenceMarker))) := by
    simp [fenceWrap]
  have htake : (fenceWrap lang body).take 3 = fenceMarker := by
    rw [hassoc, show (3 : Nat) = fenceMarker.length from rfl, List.take_left]
  have hdrop : (fenceWrap lang body).drop 3
      = lang ++ (('\n' :: body) ++ ('\n' :: fenceMarker)) := by
    rw [hassoc, show (3 : Nat) = fenceMarker.length from rfl, List.drop_left]
  have hdw : ((fenceWrap lang body).drop 3).dropWhile isFenceTag
      = '\n' :: (body ++ ('\n' :: fenceMarker)) := by
    rw [hdrop, dropWhile_append_all hlang, List.cons_append,
      List.dropWhile_cons]
    simp +decide
  unfold stripOpenFence
  rw [htake, hdw]
  simp

/-- The closing-fence regex removes exactly the trailing marker (keeping
the newline before it). -/
theorem stripCloseFence_fence (body : List Char) :
    stripCloseFence (body ++ '\n' :: fenceMarker) = body ++ ['\n'] := by
  have hrev : (body ++ '\n' :: fenceMarker).reverse
      = backtickChar :: backtickChar :: backtickChar :: '\n' :: body.reverse := by
    rw [List.reverse_append]
    rfl
  have hdr : dropRightWhilePy (body ++ '\n' :: fenceMarker)
      = body ++ '\n' :: fenceMarker :=
    dropRightWhilePy_eq_self hrev (by decide)
  have htk : (backtickChar :: backtickChar :: backtickChar :: '\n' ::
      body.reverse).take 3 = fenceMarker := rfl
  have hdp : (backtickChar :: backtickChar :: backtickChar :: '\n' ::
      body.reverse).drop 3 = '\n' :: body.reverse := rfl
  simp only [stripCloseFence]
  rw [hdr, hrev, htk, hdp]
  simp

/-- Stripping a printed object followed by a newline returns the printed
object. -/
theorem pyStrip_print_obj (body t1 t2 : List Char)
    (hh : body = lbraceChar :: t1) (hl : body = t2 ++ [rbraceChar]) :
    pyStrip (body ++ ['\n']) = body := by
  have hx : body ++ ['\n'] = lbraceChar :: (t1 ++ ['\n']) := by
    rw [hh]
    rfl
  have hrev : (body ++ ['\n']).reverse = '\n' :: body.reverse := by
    rw [List.reverse_append]
    rfl
  have hbrev : body.reverse = rbraceChar :: t2.reverse := by
    rw [hl, List.reverse_append]
    rfl
  unfold pyStrip
  rw [hx, List.dropWhile_cons, if_neg (by simp +decide), ← hx]
  unfold dropRightWhilePy
  rw [hrev, List.dropWhile_cons, if_pos (by decide), hbrev,
    List.dropWhile_cons, if_neg (by simp +decide), ← hbrev,
    List.reverse_reverse]

/-- The full `_coerce_analysis` text pipeline recovers the printed object
from a fenced block. -/
theorem coerce_preprocess_fence (lang body t1 t2 : List Char)
    (hlang : lang.all isFenceTag = true)
    (hh : body = lbraceChar :: t1) (hl : body = t2 ++ [rbraceChar]) :
    coerce_preprocess (fenceWrap lang body) = body := by
  have hcons : fenceWrap lang body
      = backtickChar :: (backtickChar :: backtickChar ::
          (lang ++ (('\n' :: body) ++ ('\n' :: fenceMarker)))) := by
    simp [fenceWrap, fenceMarker]
  have hassoc : fenceWrap lang body
      = (fenceMarker ++ (lang ++ ('\n' :: body))) ++ ('\n' :: fenceMarker) := by
    simp [fenceWrap]
  have hwrev : (fenceWrap lang body).reverse
      = backtickChar :: (backtickChar :: backtickChar :: '\n' ::
          (fenceMarker ++ (lang ++ ('\n' :: body))).reverse) := by
    rw [hassoc, List.reverse_append]
    rfl
  have hstrip1 : pyStrip (fenceWrap lang body) = fenceWrap lang body :=
    pyStrip_eq_self hcons (by decide) hwrev (by decide)
  have htk : (fenceWrap lang body).take 3 = fenceMarker := by
    rw [hcons]
    rfl
  simp only [coerce_preprocess]
  rw [hstrip1, if_pos htk, stripOpenFence_fence lang body hlang,
    stripCloseFence_fence body]
  exact pyStrip_print_obj body t1 t2 hh hl

/-- C5: if the generator returns the `json.dumps` serialisation of a JSON
object wrapped in Markdown code fences with any language tag the fence
regex accepts, `_coerce_analysis` strips the fences, parses the text, and
returns exactly that object (keys and values of well-formed printable
content). -/
theorem c5_roundtrip (fs : List (List Char × JValue)) (lang : List Char)
    (hwf : wfV (.obj fs) = true) (hlang : lang.all isFenceTag = true) :
    coerce_analysis (.str (fenceWrap lang (printV (.obj fs)))) = .obj fs := by
  obtain ⟨t1, t2, hh, hl⟩ := printV_obj_shape fs
  have hpp := coerce_preprocess_fence lang (printV (.obj fs)) t1 t2 hlang hh hl
  have hld := json_loads_print (.obj fs) hwf
  simp only [coerce_analysis]
  rw [hpp, hld]

set_option maxRecDepth 100000 in
theorem c5_roundtrip_witness :
    wfV (.obj [("mood".data, .str "happy".data),
      ("confidence".data, .num 9 1)]) = true ∧
    ("json".data).all isFenceTag = true ∧
    coerce_analysis (.str (fenceWrap "json".data
        (printV (.obj [("mood".data, .str "happy".data),
          ("confidence".data, .num 9 1)]))))
      = .obj [("mood".data, .str "happy".data),
          ("confidence".data, .num 9 1)] :=
  ⟨by decide, by decide, c5_roundtrip _ _ (by decide) (by decide)⟩
